import Mathlib

/-!
Verification of the Tech-Equity-Analytics stock pipeline
(`src/stock_analysis.py`) against its natural-language specification.

The pipeline is shallowly embedded: PostgreSQL tables become Lean lists of
structure values, SQL window functions over per-ticker partitions become
functions on the ticker's date-ordered price list, SQL `NULL` becomes
`Option`, and the orchestration in `extract_and_load_stocks` becomes a pure
state-transition function on a `DBState`.  Prices are modelled as rationals
(`NUMERIC` in the schema), dates as natural numbers (only their order
matters), and volumes as optional integers (the column is nullable and the
loader only filters on price).
-/

namespace StockAnalysis

/-- A row of the `raw_stocks` table: composite key `("Date", "Ticker")`,
with `"Price" NUMERIC` and `"Volume" BIGINT` (nullable). -/
structure PriceRow where
  date : Nat
  ticker : String
  price : ℚ
  volume : Option ℤ
  deriving DecidableEq, Repr

/-- A row of the `ticker_metadata` table: primary key `ticker`. -/
structure MetaRow where
  ticker : String
  company_name : String
  sector : String
  deriving DecidableEq, Repr

/-- A raw provider row for one ticker, before normalization: the provider
may leave price or volume missing (pandas `NaN`, modelled as `none`). -/
structure RawRow where
  date : Nat
  price : Option ℚ
  volume : Option ℤ
  deriving DecidableEq, Repr

/-! ## SQL numeric helpers -/

/-- PostgreSQL `ROUND(x, d)` on `NUMERIC`: round half away from zero at
`d` decimal places. -/
def roundHalfAway (x : ℚ) : ℤ :=
  if 0 ≤ x then ⌊x + 1 / 2⌋ else ⌈x - 1 / 2⌉

/-- Round a rational to `d` decimal places, halves away from zero,
as PostgreSQL `ROUND(x, d)` does on `NUMERIC`. -/
def roundTo (d : Nat) (x : ℚ) : ℚ :=
  (roundHalfAway (x * 10 ^ d) : ℚ) / 10 ^ d

/-- SQL `NULLIF(x, y)`: `NULL` if `x` is `NULL` or equals `y`, else `x`. -/
def nullif (x : Option ℚ) (y : ℚ) : Option ℚ :=
  x.bind (fun v => if v = y then none else some v)

/-- A strict binary SQL operator: `NULL` if either operand is `NULL`. -/
def opt2 (f : ℚ → ℚ → ℚ) (a b : Option ℚ) : Option ℚ :=
  a.bind (fun x => b.map (fun y => f x y))

/-! ## The analytical view `v_stock_analysis`

The view partitions `raw_stocks` by `"Ticker"` and orders each partition by
`"Date"`; every window below is relative to that ordering.  `viewSeries`
extracts one ticker's ordered price column, and the window functions are
defined over such a list, indexed by the row position `k` within the
partition. -/

/-- The date-ordered price series of one ticker's partition of the store:
`PARTITION BY rs."Ticker" ORDER BY rs."Date"`, projected to `"Price"`. -/
def viewSeries (store : List PriceRow) (t : String) : List ℚ :=
  ((store.filter (fun r => r.ticker = t)).insertionSort
      (fun a b => a.date ≤ b.date)).map (fun r => r.price)

/-- The rows a SQL frame `ROWS BETWEEN w-1 PRECEDING AND CURRENT ROW`
sees at row index `k` of the partition `ps`. -/
def windowRows (w k : Nat) (ps : List ℚ) : List ℚ :=
  (ps.take (k + 1)).drop (k + 1 - w)

/-- SQL `AVG(rs."Price") OVER (... ROWS BETWEEN w-1 PRECEDING AND CURRENT ROW)`
at row `k`: the source view uses `w = 50` for `sma_50` (49 preceding) and
`w = 200` for `sma_200` (199 preceding). -/
def sma (w k : Nat) (ps : List ℚ) : ℚ :=
  (windowRows w k ps).sum / (windowRows w k ps).length

/-- SQL `MAX(rs."Price") OVER (... ROWS BETWEEN 251 PRECEDING AND CURRENT ROW)`
at row `k` (SQL `MAX` is `NULL` over an empty window). -/
def high_52week (k : Nat) (ps : List ℚ) : Option ℚ :=
  (windowRows 252 k ps).max?

/-- SQL `LAG(rs."Price") OVER w` at row `k`: `NULL` on the partition's first
row, else the previous row's price. -/
def lagPrice (ps : List ℚ) (k : Nat) : Option ℚ :=
  if k = 0 then none else some (ps.getD (k - 1) 0)

/-- SQL `ROUND(((rs."Price" - LAG(rs."Price") OVER w)
/ NULLIF(LAG(rs."Price") OVER w, 0)) * 100, 4)` at row `k`. -/
def daily_return_pct (ps : List ℚ) (k : Nat) : Option ℚ :=
  (opt2 (fun a b => a / b)
      (opt2 (fun a b => a - b) (some (ps.getD k 0)) (lagPrice ps k))
      (nullif (lagPrice ps k) 0)).map (fun q => roundTo 4 (q * 100))

/-- The view expression `CASE WHEN sma_50 > sma_200 THEN 'Bullish' WHEN sma_50 < sma_200 THEN
'Bearish' ELSE 'Neutral' END` of the view's outer `SELECT`. -/
def trendSignal (a b : ℚ) : String :=
  if a > b then "Bullish" else if a < b then "Bearish" else "Neutral"

/-- SQL `ROUND((("Price" - high_52week) / NULLIF(high_52week, 0)) * 100, 2)`
at row `k`. -/
def pct_from_52wk_high (ps : List ℚ) (k : Nat) : Option ℚ :=
  (opt2 (fun a b => a / b)
      (opt2 (fun a b => a - b) (some (ps.getD k 0)) (high_52week k ps))
      (nullif (high_52week k ps) 0)).map (fun q => roundTo 2 (q * 100))

/-- The last `n` elements of a list (the spec's "trailing `n` rows"). -/
def lastRows (n : Nat) (l : List ℚ) : List ℚ :=
  l.drop (l.length - n)

/-! ## Loader: upsert into `raw_stocks`

`INSERT INTO raw_stocks ... ON CONFLICT ("Date", "Ticker") DO UPDATE SET
"Price" = EXCLUDED."Price", "Volume" = EXCLUDED."Volume"`, executed once per
row of the batch inside a single `engine.begin()` transaction. -/

/-- Does stored row `x` sit at key `(d, t)`? -/
def rowKeyMatch (d : Nat) (t : String) (x : PriceRow) : Bool :=
  x.date == d && x.ticker == t

/-- The `DO UPDATE SET "Price" = EXCLUDED."Price", "Volume" =
EXCLUDED."Volume"` action: a stored row at the incoming row's key gets the
incoming price and volume; its key and any other row are untouched. -/
def overwriteBy (r : PriceRow) (x : PriceRow) : PriceRow :=
  if rowKeyMatch r.date r.ticker x then
    { x with price := r.price, volume := r.volume }
  else x

/-- One `INSERT ... ON CONFLICT ("Date", "Ticker") DO UPDATE` execution:
insert the row if its key is absent, else overwrite the existing row's
price and volume with the new values. -/
def upsertRow (s : List PriceRow) (r : PriceRow) : List PriceRow :=
  if s.any (rowKeyMatch r.date r.ticker) then s.map (overwriteBy r)
  else s ++ [r]

/-- The batch upsert of `extract_and_load_stocks`: the parameter list is
executed row by row against the store. -/
def loadBatch (s : List PriceRow) (rows : List PriceRow) : List PriceRow :=
  rows.foldl upsertRow s

/-- The composite keys `("Date", "Ticker")` of a store. -/
def rowKeys (s : List PriceRow) : List (Nat × String) :=
  s.map (fun x => (x.date, x.ticker))

/-- The store's `PRIMARY KEY ("Date", "Ticker")` invariant: no two rows
share a composite key. -/
def nodupKeys (s : List PriceRow) : Prop :=
  (rowKeys s).Nodup

instance (s : List PriceRow) : Decidable (nodupKeys s) :=
  List.nodupDecidable (rowKeys s)

/-- Modelled from the spec: the relational store's transaction contract
(§6 "transactional execute/commit", §4.4 "implemented as a single
transaction").  The source wraps the whole batch upsert in one
`engine.begin()` block; commit or rollback of that block is performed by
the external database, which is not part of `src/`.  A `failAt = some i`
run fails after `i` rows: the pending partial work is rolled back and the
prior store is kept; a `failAt = none` run commits the whole batch. -/
def runLoadTransaction (s : List PriceRow) (rows : List PriceRow)
    (failAt : Option Nat) : List PriceRow :=
  match failAt with
  | none => loadBatch s rows
  | some i =>
    let _pending := loadBatch s (rows.take i)
    s

/-! ## Metadata seeding (`setup_database_schema`) -/

/-- One `INSERT INTO ticker_metadata ... ON CONFLICT (ticker) DO NOTHING`
execution: skipped if the ticker is already stored. -/
def insertIgnore (s : List MetaRow) (c : MetaRow) : List MetaRow :=
  if s.any (fun x => x.ticker == c.ticker) then s else s ++ [c]

/-- The seeding step of `setup_database_schema`: read the existing
tickers, keep the candidates whose ticker is not among them
(`new_tickers`), insert those with `ON CONFLICT DO NOTHING`, and report
`len(new_tickers)` (the count the source logs).  Returns the new store
and the reported count. -/
def seedNewTickers (s : List MetaRow) (cands : List MetaRow) :
    List MetaRow × Nat :=
  let existing := s.map (fun x => x.ticker)
  let newTickers := cands.filter (fun c => !(existing.contains c.ticker))
  (newTickers.foldl insertIgnore s, newTickers.length)

/-! ## Fetcher with retry (`download_with_retry`) -/

/-- One provider call: either a series (possibly empty) or a raised
error, which the source catches with `except Exception`. -/
inductive FetchOutcome where
  | success (rows : List RawRow)
  | failure
  deriving DecidableEq, Repr

/-- The attempt outcomes that make `download_with_retry` keep trying:
a raised error or an empty series. -/
def failsOrEmpty : FetchOutcome → Bool
  | FetchOutcome.success d => d.isEmpty
  | FetchOutcome.failure => true

/-- The `for attempt in range(1, retries + 1)` loop body of
`download_with_retry`, over the listed attempt numbers: a non-empty
series returns immediately; an error or empty series falls through to
the next attempt; an exhausted list returns the empty series.  The
second component counts the download attempts performed. -/
def runAttempts (provider : Nat → FetchOutcome) :
    List Nat → List RawRow × Nat
  | [] => ([], 0)
  | a :: rest =>
    match provider a with
    | FetchOutcome.success d =>
      if d.isEmpty then
        let p := runAttempts provider rest
        (p.1, p.2 + 1)
      else (d, 1)
    | FetchOutcome.failure =>
      let p := runAttempts provider rest
      (p.1, p.2 + 1)

/-- The fetcher `download_with_retry(ticker, start, end, retries)`: run the attempt
loop over `range(1, retries + 1)`, returning the downloaded series (or
`pd.DataFrame()`, the empty series) together with the number of attempts
performed. -/
def download_with_retry (provider : Nat → FetchOutcome) (retries : Nat) :
    List RawRow × Nat :=
  runAttempts provider (List.range' 1 retries)

/-! ## The per-ticker ETL loop as an event trace -/

/-- Observable events of the `for ticker in tickers` loop in
`extract_and_load_stocks`: a call to `download_with_retry` for a ticker,
or a `time.sleep(cfg.get("download_sleep_secs", 1))`. -/
inductive EtlEvent where
  | fetchEvt (ticker : String)
  | sleepEvt (secs : Nat)
  deriving DecidableEq, Repr

/-- Is an event a ticker fetch? -/
def isFetch : EtlEvent → Bool
  | EtlEvent.fetchEvt _ => true
  | EtlEvent.sleepEvt _ => false

/-- The event trace of the per-ticker loop: each ticker is fetched; when
the fetch result is empty the loop does `continue`, skipping the
inter-request `time.sleep`; otherwise the frame is accumulated and the
loop sleeps `sleepSecs` before the next ticker. -/
def etlTrace (fetched : String → List RawRow) (sleepSecs : Nat) :
    List String → List EtlEvent
  | [] => []
  | t :: rest =>
    if (fetched t).isEmpty then
      EtlEvent.fetchEvt t :: etlTrace fetched sleepSecs rest
    else
      EtlEvent.fetchEvt t :: EtlEvent.sleepEvt sleepSecs ::
        etlTrace fetched sleepSecs rest

/-- No two fetch events are adjacent in the trace, i.e. some delay
separates every two consecutive tickers' fetches. -/
def noAdjacentFetches : List EtlEvent → Bool
  | [] => true
  | [_] => true
  | a :: b :: rest => !(isFetch a && isFetch b) && noAdjacentFetches (b :: rest)

/-! ## Normalization and the whole pipeline run -/

/-- A provider row tagged with its ticker (`df_ticker["Ticker"] = ticker`
and the column reordering to `["Date", "Ticker", "Price", "Volume"]`),
price still possibly missing. -/
structure TaggedRow where
  date : Nat
  ticker : String
  price : Option ℚ
  volume : Option ℤ
  deriving DecidableEq, Repr

/-- Tag one ticker's raw frame with its ticker symbol. -/
def tagRows (t : String) (raw : List RawRow) : List TaggedRow :=
  raw.map (fun x =>
    { date := x.date, ticker := t, price := x.price, volume := x.volume })

/-- The step `df.dropna(subset=["Price"], inplace=True)`: rows are dropped exactly
when their price is missing; `"Volume"` is not consulted. -/
def dropNullPrice (rows : List TaggedRow) : List TaggedRow :=
  rows.filter (fun r => r.price.isSome)

/-- A kept tagged row as the loader sees it (its price is present after
`dropNullPrice`; `getD` supplies an irrelevant default). -/
def toPriceRow (r : TaggedRow) : PriceRow :=
  { date := r.date, ticker := r.ticker, price := r.price.getD 0,
    volume := r.volume }

/-- The durable state: the `ticker_metadata` table, the `raw_stocks`
table, and whether the derived view `v_stock_analysis` currently exists
in the schema. -/
structure DBState where
  metaRows : List MetaRow
  priceRows : List PriceRow
  viewExists : Bool
  deriving DecidableEq, Repr

/-- Phase 1, `setup_database_schema(engine, cfg)`: drop `v_stock_analysis`
(`DROP VIEW IF EXISTS ... CASCADE`), create the tables if absent (the
stored rows are untouched), and seed the configured tickers. -/
def setup_database_schema (cfg : List MetaRow) (st : DBState) : DBState :=
  { metaRows := (seedNewTickers st.metaRows cfg).1
    priceRows := st.priceRows
    viewExists := false }

/-- Phase 2, `extract_and_load_stocks(engine, cfg)`: read the ticker list from
`ticker_metadata`; return early if it is empty; fetch each ticker and keep
the non-empty frames; return early if none remain; otherwise concatenate,
drop rows with missing price, upsert the batch, and recreate the
analytical view.  `fetched t` is the series `download_with_retry` ends up
returning for ticker `t`. -/
def extract_and_load_stocks (fetched : String → List RawRow) (st : DBState) :
    DBState :=
  let tickers := st.metaRows.map (fun m => m.ticker)
  if tickers.isEmpty then st
  else
    let frames := (tickers.map (fun t => tagRows t (fetched t))).filter
      (fun f => !f.isEmpty)
    if frames.isEmpty then st
    else
      let rows := dropNullPrice frames.flatten
      { metaRows := st.metaRows
        priceRows := loadBatch st.priceRows (rows.map toPriceRow)
        viewExists := true }

/-- One pipeline run, as `__main__` sequences it: schema setup and
seeding, then extract-transform-load. -/
def pipelineRun (cfg : List MetaRow) (fetched : String → List RawRow)
    (st : DBState) : DBState :=
  extract_and_load_stocks fetched (setup_database_schema cfg st)

/-- A tiny concrete store used to evaluate the view theorems on an
explicit input: one ticker `A` with two dated price rows. -/
def demoStore : List PriceRow :=
  [{ date := 1, ticker := "A", price := 10, volume := none },
   { date := 2, ticker := "A", price := 20, volume := some 5 }]

/-- A concrete provider with mixed outcomes, used to evaluate the ETL
trace theorems: `AAPL` yields one row, every other ticker comes back
empty. -/
def mixedFetch : String → List RawRow :=
  fun t =>
    if t = "AAPL" then [{ date := 0, price := some 1, volume := none }] else []

end StockAnalysis

namespace StockAnalysis

/-- Rounding an exact integer changes nothing, whatever the sign. -/
theorem roundHalfAway_intCast (n : ℤ) : roundHalfAway (n : ℚ) = n := by
  unfold roundHalfAway
  split
  · rw [Int.floor_eq_iff]
    constructor <;> norm_num
  · rw [Int.ceil_eq_iff]
    constructor <;> norm_num

/-- The view's `CASE` expression, case by case, for any pair of
averages. -/
theorem trendSignal_eq_iff (a b : ℚ) :
    (trendSignal a b = "Bullish" ↔ a > b)
    ∧ (trendSignal a b = "Bearish" ↔ a < b)
    ∧ (trendSignal a b = "Neutral" ↔ ¬ a > b ∧ ¬ a < b) := by
  unfold trendSignal
  by_cases h1 : a > b
  · have h2 : ¬ a < b := lt_asymm h1
    rw [if_pos h1]
    refine ⟨?_, ?_, ?_⟩ <;> simp [h1, h2]
  · rw [if_neg h1]
    by_cases h2 : a < b
    · rw [if_pos h2]
      refine ⟨?_, ?_, ?_⟩ <;> simp [h1, h2]
    · rw [if_neg h2]
      refine ⟨?_, ?_, ?_⟩ <;> simp [h1, h2]

/-- C2: in the analytics view, `trend_signal` is `Bullish` iff
`sma_50 > sma_200`, `Bearish` iff `sma_50 < sma_200`, `Neutral` exactly
otherwise (including equality), and is always one of these three
strings. -/
theorem trend_signal_trichotomy (store : List PriceRow) (t : String) (k : Nat) :
    (trendSignal (sma 50 k (viewSeries store t)) (sma 200 k (viewSeries store t))
        = "Bullish" ↔ sma 50 k (viewSeries store t) > sma 200 k (viewSeries store t))
    ∧ (trendSignal (sma 50 k (viewSeries store t)) (sma 200 k (viewSeries store t))
        = "Bearish" ↔ sma 50 k (viewSeries store t) < sma 200 k (viewSeries store t))
    ∧ (trendSignal (sma 50 k (viewSeries store t)) (sma 200 k (viewSeries store t))
        = "Neutral" ↔
        ¬ sma 50 k (viewSeries store t) > sma 200 k (viewSeries store t)
          ∧ ¬ sma 50 k (viewSeries store t) < sma 200 k (viewSeries store t))
    ∧ (trendSignal (sma 50 k (viewSeries store t)) (sma 200 k (viewSeries store t))
          = "Bullish"
        ∨ trendSignal (sma 50 k (viewSeries store t)) (sma 200 k (viewSeries store t))
          = "Bearish"
        ∨ trendSignal (sma 50 k (viewSeries store t)) (sma 200 k (viewSeries store t))
          = "Neutral") := by
  obtain ⟨h1, h2, h3⟩ :=
    trendSignal_eq_iff (sma 50 k (viewSeries store t)) (sma 200 k (viewSeries store t))
  refine ⟨h1, h2, h3, ?_⟩
  rcases lt_trichotomy (sma 50 k (viewSeries store t))
    (sma 200 k (viewSeries store t)) with h | h | h
  · exact Or.inr (Or.inl (h2.mpr h))
  · exact Or.inr (Or.inr (h3.mpr ⟨by simp [h], by simp [h]⟩))
  · exact Or.inl (h1.mpr h)

/-- C5: a load invocation is atomic over its whole batch — a failure at
any point of the batch leaves the prior store intact, and a successful
commit applies every row. -/
theorem load_transaction_atomic (s rows : List PriceRow) (i : Nat) :
    runLoadTransaction s rows (some i) = s
    ∧ runLoadTransaction s rows none = loadBatch s rows :=
  ⟨rfl, rfl⟩

/-- When every listed attempt fails or comes back empty, the attempt
loop exhausts the list and returns the empty series. -/
theorem runAttempts_all_fail (provider : Nat → FetchOutcome) (l : List Nat)
    (h : ∀ a ∈ l, failsOrEmpty (provider a) = true) :
    runAttempts provider l = ([], l.length) := by
  induction l with
  | nil => rfl
  | cons a rest ih =>
    have ha := h a (List.mem_cons_self a rest)
    have hrest := ih (fun x hx => h x (List.mem_cons_of_mem a hx))
    cases hp : provider a with
    | success d =>
      have hd : d.isEmpty = true := by simpa [failsOrEmpty, hp] using ha
      simp [runAttempts, hp, hd, hrest]
    | failure => simp [runAttempts, hp, hrest]

/-- C6: if the provider fails or returns an empty series on every
attempt, `download_with_retry` performs exactly `retries` download
attempts and then returns the explicit empty result; no provider outcome
escapes as an exception (every outcome, including a raised error, yields
a value). -/
theorem download_retry_exhausts (provider : Nat → FetchOutcome) (retries : Nat)
    (_hr : 1 ≤ retries) (h : ∀ a, failsOrEmpty (provider a) = true) :
    download_with_retry provider retries = ([], retries) := by
  unfold download_with_retry
  rw [runAttempts_all_fail provider _ (fun a _ => h a), List.length_range']

theorem download_retry_exhausts_witness :
    1 ≤ 3 ∧ download_with_retry (fun _ => FetchOutcome.failure) 3 = ([], 3) :=
  ⟨by decide,
    download_retry_exhausts (fun _ => FetchOutcome.failure) 3 (by decide)
      (fun _ => rfl)⟩

/-- The per-ticker loop's trace, whenever non-empty, starts with a fetch
event: each iteration fetches before anything else. -/
theorem etlTrace_head_all_fetch (fetched : String → List RawRow) (s : Nat)
    (rest : List String) :
    ((etlTrace fetched s rest)[0]?.all isFetch) = true := by
  cases rest with
  | nil => rfl
  | cons r rr =>
    simp only [etlTrace]
    by_cases h : (fetched r).isEmpty = true
    · rw [if_pos h, List.getElem?_cons_zero]
      rfl
    · rw [if_neg h, List.getElem?_cons_zero]
      rfl

/-- C7, counterexample: with two tickers whose fetches both come back
empty, the loop `continue`s past the `time.sleep`, so the two
consecutive fetches have no delay between them — the claimed
"regardless of outcome" delay does not hold. -/
theorem inter_ticker_delay_counterexample :
    etlTrace (fun _ => []) 1 ["AAPL", "MSFT"]
        = [EtlEvent.fetchEvt "AAPL", EtlEvent.fetchEvt "MSFT"]
    ∧ noAdjacentFetches (etlTrace (fun _ => []) 1 ["AAPL", "MSFT"]) = false := by
  constructor <;> decide

/-- C7, amended, per pair of adjacent trace events: wherever the trace
holds the fetch of a ticker whose series came back non-empty, the very
next event is the fixed `sleepSecs` sleep (so a delay separates that
fetch from the next ticker's); wherever it holds the fetch of a ticker
whose series came back empty, the next event — if any — is directly the
next ticker's fetch, with no delay in between. -/
theorem inter_ticker_delay_after_success (fetched : String → List RawRow)
    (s : Nat) (ts : List String) (i : Nat) (t : String)
    (hi : (etlTrace fetched s ts)[i]? = some (EtlEvent.fetchEvt t)) :
    ((fetched t).isEmpty = false →
      (etlTrace fetched s ts)[i + 1]? = some (EtlEvent.sleepEvt s))
    ∧ ((fetched t).isEmpty = true →
      ((etlTrace fetched s ts)[i + 1]?.all isFetch) = true) := by
  induction ts generalizing i with
  | nil => simp [etlTrace] at hi
  | cons u rest ih =>
    by_cases hu : (fetched u).isEmpty = true
    · have he : etlTrace fetched s (u :: rest)
          = EtlEvent.fetchEvt u :: etlTrace fetched s rest := by
        simp only [etlTrace]
        rw [if_pos hu]
      rw [he] at hi
      cases i with
      | zero =>
        rw [List.getElem?_cons_zero] at hi
        simp only [Option.some.injEq, EtlEvent.fetchEvt.injEq] at hi
        subst hi
        constructor
        · intro hne
          simp [hu] at hne
        · intro _
          rw [he, List.getElem?_cons_succ]
          exact etlTrace_head_all_fetch fetched s rest
      | succ j =>
        rw [List.getElem?_cons_succ] at hi
        obtain ⟨c1, c2⟩ := ih j hi
        rw [he]
        constructor
        · intro hne
          rw [List.getElem?_cons_succ]
          exact c1 hne
        · intro hemp
          rw [List.getElem?_cons_succ]
          exact c2 hemp
    · have hu' : (fetched u).isEmpty = false := Bool.eq_false_iff.mpr hu
      have he : etlTrace fetched s (u :: rest)
          = EtlEvent.fetchEvt u :: EtlEvent.sleepEvt s ::
              etlTrace fetched s rest := by
        simp only [etlTrace]
        rw [if_neg hu]
      rw [he] at hi
      cases i with
      | zero =>
        rw [List.getElem?_cons_zero] at hi
        simp only [Option.some.injEq, EtlEvent.fetchEvt.injEq] at hi
        subst hi
        constructor
        · intro _
          rw [he, List.getElem?_cons_succ, List.getElem?_cons_zero]
        · intro hemp
          simp [hu'] at hemp
      | succ j =>
        cases j with
        | zero =>
          rw [List.getElem?_cons_succ, List.getElem?_cons_zero] at hi
          simp at hi
        | succ m =>
          rw [List.getElem?_cons_succ, List.getElem?_cons_succ] at hi
          obtain ⟨c1, c2⟩ := ih m hi
          rw [he]
          constructor
          · intro hne
            rw [List.getElem?_cons_succ, List.getElem?_cons_succ]
            exact c1 hne
          · intro hemp
            rw [List.getElem?_cons_succ, List.getElem?_cons_succ]
            exact c2 hemp

theorem inter_ticker_delay_after_success_witness :
    ((etlTrace mixedFetch 1 ["AAPL", "MSFT"])[0]? = some (EtlEvent.fetchEvt "AAPL"))
    ∧ ((etlTrace mixedFetch 1 ["AAPL", "MSFT"])[1]? = some (EtlEvent.sleepEvt 1))
    ∧ ((etlTrace mixedFetch 1 ["AAPL", "MSFT"])[2]? = some (EtlEvent.fetchEvt "MSFT"))
    ∧ (((etlTrace mixedFetch 1 ["AAPL", "MSFT"])[3]?.all isFetch) = true) :=
  ⟨by decide,
    (inter_ticker_delay_after_success mixedFetch 1 ["AAPL", "MSFT"] 0 "AAPL"
      (by decide)).1 (by decide),
    by decide,
    (inter_ticker_delay_after_success mixedFetch 1 ["AAPL", "MSFT"] 2 "MSFT"
      (by decide)).2 (by decide)⟩

/-- C10: normalization drops a row exactly when its price is missing — a
row with a present price but missing volume is kept and passed through
unchanged (the kept rows form a sublist of the input). -/
theorem normalize_drops_only_null_price (rows : List TaggedRow) (r : TaggedRow)
    (hmem : r ∈ rows) :
    (r ∈ dropNullPrice rows ↔ r.price.isSome = true)
    ∧ (dropNullPrice rows).Sublist rows
    ∧ (toPriceRow r).date = r.date
    ∧ (toPriceRow r).ticker = r.ticker
    ∧ (toPriceRow r).volume = r.volume := by
  refine ⟨?_, List.filter_sublist rows, rfl, rfl, rfl⟩
  simp [dropNullPrice, List.mem_filter, hmem]

/-- The SQL row frame at row `k` equals the trailing `min (k+1) w` rows
of the partition prefix ending at row `k`, and holds that many rows. -/
theorem windowRows_eq_lastRows (w k : Nat) (ps : List ℚ) (hk : k < ps.length) :
    windowRows w k ps = lastRows (min (k + 1) w) (ps.take (k + 1))
    ∧ (windowRows w k ps).length = min (k + 1) w := by
  have hlen : (ps.take (k + 1)).length = k + 1 := by
    rw [List.length_take]
    omega
  constructor
  · unfold windowRows lastRows
    rw [hlen]
    congr 1
    omega
  · unfold windowRows
    rw [List.length_drop, hlen]
    omega

/-- A non-empty list has a maximum. -/
theorem max?_isSome_of_ne_nil (l : List ℚ) (h : l ≠ []) : l.max?.isSome = true := by
  cases l with
  | nil => cases h rfl
  | cons a t => simp [List.max?]

/-- C1: per ticker, ordered by date, `sma_50` (resp. `sma_200`) at row
`k` is the arithmetic mean — sum divided by count — of the trailing
`min (k+1, 50)` (resp. `min (k+1, 200)`) prices ending at row `k`, and
`high_52week` is the maximum over the trailing `min (k+1, 252)` prices;
the 52-week window is never empty, so `high_52week` is never null. -/
theorem sma_high_trailing_window (store : List PriceRow) (t : String) (k : Nat)
    (hk : k < (viewSeries store t).length) :
    sma 50 k (viewSeries store t)
        = (lastRows (min (k + 1) 50) ((viewSeries store t).take (k + 1))).sum
            / (min (k + 1) 50 : ℕ)
    ∧ (lastRows (min (k + 1) 50) ((viewSeries store t).take (k + 1))).length
        = min (k + 1) 50
    ∧ sma 200 k (viewSeries store t)
        = (lastRows (min (k + 1) 200) ((viewSeries store t).take (k + 1))).sum
            / (min (k + 1) 200 : ℕ)
    ∧ (lastRows (min (k + 1) 200) ((viewSeries store t).take (k + 1))).length
        = min (k + 1) 200
    ∧ high_52week k (viewSeries store t)
        = (lastRows (min (k + 1) 252) ((viewSeries store t).take (k + 1))).max?
    ∧ (high_52week k (viewSeries store t)).isSome = true := by
  obtain ⟨e50, l50⟩ := windowRows_eq_lastRows 50 k _ hk
  obtain ⟨e200, l200⟩ := windowRows_eq_lastRows 200 k _ hk
  obtain ⟨e252, l252⟩ := windowRows_eq_lastRows 252 k _ hk
  rw [e50] at l50
  rw [e200] at l200
  refine ⟨?_, l50, ?_, l200, ?_, ?_⟩
  · unfold sma
    rw [e50, l50]
  · unfold sma
    rw [e200, l200]
  · unfold high_52week
    rw [e252]
  · unfold high_52week
    apply max?_isSome_of_ne_nil
    apply List.ne_nil_of_length_pos
    rw [l252]
    omega

theorem sma_high_trailing_window_witness :
    1 < (viewSeries demoStore "A").length
    ∧ (sma 50 1 (viewSeries demoStore "A")
        = (lastRows (min (1 + 1) 50) ((viewSeries demoStore "A").take (1 + 1))).sum
            / (min (1 + 1) 50 : ℕ)
      ∧ (lastRows (min (1 + 1) 50) ((viewSeries demoStore "A").take (1 + 1))).length
          = min (1 + 1) 50
      ∧ sma 200 1 (viewSeries demoStore "A")
          = (lastRows (min (1 + 1) 200) ((viewSeries demoStore "A").take (1 + 1))).sum
              / (min (1 + 1) 200 : ℕ)
      ∧ (lastRows (min (1 + 1) 200) ((viewSeries demoStore "A").take (1 + 1))).length
          = min (1 + 1) 200
      ∧ high_52week 1 (viewSeries demoStore "A")
          = (lastRows (min (1 + 1) 252) ((viewSeries demoStore "A").take (1 + 1))).max?
      ∧ (high_52week 1 (viewSeries demoStore "A")).isSome = true) :=
  ⟨by decide, sma_high_trailing_window demoStore "A" 1 (by decide)⟩

/-- The column `daily_return_pct`, evaluated: null on the first row and when the
prior price is zero, else the rounded percentage change. -/
theorem daily_return_pct_eq (ps : List ℚ) (k : Nat) :
    daily_return_pct ps k
      = (if k = 0 then none
         else if ps.getD (k - 1) 0 = 0 then none
         else some (roundTo 4
           ((ps.getD k 0 - ps.getD (k - 1) 0) / ps.getD (k - 1) 0 * 100))) := by
  by_cases h0 : k = 0
  · simp [daily_return_pct, lagPrice, h0, opt2, nullif]
  · by_cases hz : ps.getD (k - 1) 0 = 0
    · rw [List.getD_eq_getElem?_getD] at hz
      simp [daily_return_pct, lagPrice, h0, hz, opt2, nullif]
    · rw [List.getD_eq_getElem?_getD] at hz
      simp [daily_return_pct, lagPrice, h0, hz, opt2, nullif]

/-- The column `pct_from_52wk_high`, evaluated: null when the 52-week high is zero
(or the window yields no value), else the rounded distance from it. -/
theorem pct_from_high_eq (ps : List ℚ) (k : Nat) :
    pct_from_52wk_high ps k
      = (if high_52week k ps = some 0 then none
         else (high_52week k ps).map
           (fun hq => roundTo 2 ((ps.getD k 0 - hq) / hq * 100))) := by
  by_cases h : high_52week k ps = some 0
  · simp [pct_from_52wk_high, h, opt2, nullif]
  · cases hh : high_52week k ps with
    | none => simp [pct_from_52wk_high, hh, opt2, nullif]
    | some q =>
      have hq : ¬ q = 0 := by
        intro e
        exact h (by rw [hh, e])
      simp [pct_from_52wk_high, hh, opt2, nullif, hq]

/-- C3: per ticker, `daily_return_pct` is null on the first row and
whenever the prior price is zero, else it is the day-over-day change in
percent rounded to 4 decimals; `pct_from_52wk_high` is null whenever
`high_52week` is zero, else the rounded distance from the high in
percent rounded to 2 decimals. -/
theorem return_and_high_null_safety (store : List PriceRow) (t : String) (k : Nat)
    (_hk : k < (viewSeries store t).length) :
    daily_return_pct (viewSeries store t) k
        = (if k = 0 then none
           else if (viewSeries store t).getD (k - 1) 0 = 0 then none
           else some (roundTo 4
             (((viewSeries store t).getD k 0 - (viewSeries store t).getD (k - 1) 0)
               / (viewSeries store t).getD (k - 1) 0 * 100)))
    ∧ pct_from_52wk_high (viewSeries store t) k
        = (if high_52week k (viewSeries store t) = some 0 then none
           else (high_52week k (viewSeries store t)).map
             (fun hq => roundTo 2
               (((viewSeries store t).getD k 0 - hq) / hq * 100))) :=
  ⟨daily_return_pct_eq (viewSeries store t) k, pct_from_high_eq (viewSeries store t) k⟩

theorem return_and_high_null_safety_witness :
    1 < (viewSeries demoStore "A").length
    ∧ (daily_return_pct (viewSeries demoStore "A") 1
        = (if 1 = 0 then none
           else if (viewSeries demoStore "A").getD (1 - 1) 0 = 0 then none
           else some (roundTo 4
             (((viewSeries demoStore "A").getD 1 0 - (viewSeries demoStore "A").getD (1 - 1) 0)
               / (viewSeries demoStore "A").getD (1 - 1) 0 * 100)))
      ∧ pct_from_52wk_high (viewSeries demoStore "A") 1
          = (if high_52week 1 (viewSeries demoStore "A") = some 0 then none
             else (high_52week 1 (viewSeries demoStore "A")).map
               (fun hq => roundTo 2
                 (((viewSeries demoStore "A").getD 1 0 - hq) / hq * 100)))) :=
  ⟨by decide, return_and_high_null_safety demoStore "A" 1 (by decide)⟩

theorem normalize_drops_only_null_price_witness :
    (({ date := 5, ticker := "AAPL", price := some 10, volume := none } : TaggedRow)
        ∈ [({ date := 5, ticker := "AAPL", price := some 10, volume := none } : TaggedRow)])
    ∧ ((({ date := 5, ticker := "AAPL", price := some 10, volume := none } : TaggedRow)
          ∈ dropNullPrice
            [({ date := 5, ticker := "AAPL", price := some 10, volume := none } : TaggedRow)]
        ↔ (({ date := 5, ticker := "AAPL", price := some 10, volume := none } : TaggedRow)).price.isSome
            = true)
      ∧ (dropNullPrice
          [({ date := 5, ticker := "AAPL", price := some 10, volume := none } : TaggedRow)]).Sublist
          [({ date := 5, ticker := "AAPL", price := some 10, volume := none } : TaggedRow)]
      ∧ (toPriceRow ({ date := 5, ticker := "AAPL", price := some 10, volume := none } : TaggedRow)).date
          = ({ date := 5, ticker := "AAPL", price := some 10, volume := none } : TaggedRow).date
      ∧ (toPriceRow ({ date := 5, ticker := "AAPL", price := some 10, volume := none } : TaggedRow)).ticker
          = ({ date := 5, ticker := "AAPL", price := some 10, volume := none } : TaggedRow).ticker
      ∧ (toPriceRow ({ date := 5, ticker := "AAPL", price := some 10, volume := none } : TaggedRow)).volume
          = ({ date := 5, ticker := "AAPL", price := some 10, volume := none } : TaggedRow).volume) :=
  ⟨by decide,
    normalize_drops_only_null_price
      [({ date := 5, ticker := "AAPL", price := some 10, volume := none } : TaggedRow)]
      ({ date := 5, ticker := "AAPL", price := some 10, volume := none } : TaggedRow)
      (by decide)⟩

/-! ### Loader upsert lemmas (C4) -/

/-- Overwriting never changes a row's date. -/
theorem overwriteBy_date (r x : PriceRow) : (overwriteBy r x).date = x.date := by
  unfold overwriteBy
  split <;> rfl

/-- Overwriting never changes a row's ticker. -/
theorem overwriteBy_ticker (r x : PriceRow) : (overwriteBy r x).ticker = x.ticker := by
  unfold overwriteBy
  split <;> rfl

/-- Overwriting preserves key membership tests. -/
theorem rowKeyMatch_overwriteBy (d : Nat) (t : String) (r x : PriceRow) :
    rowKeyMatch d t (overwriteBy r x) = rowKeyMatch d t x := by
  simp [rowKeyMatch, overwriteBy_date, overwriteBy_ticker]

/-- A row matches its own key. -/
theorem rowKeyMatch_self (r : PriceRow) : rowKeyMatch r.date r.ticker r = true := by
  simp [rowKeyMatch]

/-- Overwriting a row that sits at the incoming key yields exactly the
incoming row. -/
theorem overwriteBy_of_match (r x : PriceRow)
    (h : rowKeyMatch r.date r.ticker x = true) : overwriteBy r x = r := by
  cases r with
  | mk rd rt rp rv =>
    cases x with
    | mk xd xt xp xv =>
      simp only [rowKeyMatch, Bool.and_eq_true, beq_iff_eq] at h
      simp [overwriteBy, rowKeyMatch, h.1, h.2]

/-- Overwriting leaves rows at other keys untouched. -/
theorem overwriteBy_of_not_match (r x : PriceRow)
    (h : rowKeyMatch r.date r.ticker x = false) : overwriteBy r x = x := by
  simp [overwriteBy, h]

/-- Overwriting twice is overwriting once. -/
theorem overwriteBy_idem (r x : PriceRow) :
    overwriteBy r (overwriteBy r x) = overwriteBy r x := by
  by_cases h : rowKeyMatch r.date r.ticker x = true
  · rw [overwriteBy_of_match r x h, overwriteBy_of_match r r (rowKeyMatch_self r)]
  · have h' : rowKeyMatch r.date r.ticker x = false := Bool.eq_false_iff.mpr h
    rw [overwriteBy_of_not_match r x h', overwriteBy_of_not_match r x h']

/-- A map that fixes every member is the identity. -/
theorem map_eq_self_of {α : Type} (l : List α) (f : α → α)
    (h : ∀ x ∈ l, f x = x) : l.map f = l := by
  induction l with
  | nil => rfl
  | cons a t ih =>
    simp [h a (List.mem_cons_self a t),
      ih (fun x hx => h x (List.mem_cons_of_mem a hx))]

/-- Re-upserting the same row changes nothing (no hypothesis needed). -/
theorem upsertRow_idem (s : List PriceRow) (r : PriceRow) :
    upsertRow (upsertRow s r) r = upsertRow s r := by
  by_cases h : s.any (rowKeyMatch r.date r.ticker) = true
  · have e1 : upsertRow s r = s.map (overwriteBy r) := by
      unfold upsertRow
      rw [if_pos h]
    have hany : (s.map (overwriteBy r)).any (rowKeyMatch r.date r.ticker) = true := by
      rw [List.any_map]
      have hc : (rowKeyMatch r.date r.ticker ∘ overwriteBy r)
          = rowKeyMatch r.date r.ticker := by
        funext x
        exact rowKeyMatch_overwriteBy _ _ _ _
      rw [hc]
      exact h
    rw [e1]
    unfold upsertRow
    rw [if_pos hany, List.map_map]
    have hc : (overwriteBy r ∘ overwriteBy r) = overwriteBy r := by
      funext x
      exact overwriteBy_idem r x
    rw [hc]
  · have hf : s.any (rowKeyMatch r.date r.ticker) = false := Bool.eq_false_iff.mpr h
    have e1 : upsertRow s r = s ++ [r] := by
      unfold upsertRow
      rw [if_neg h]
    have hany : (s ++ [r]).any (rowKeyMatch r.date r.ticker) = true := by
      rw [List.any_append]
      simp [rowKeyMatch_self]
    have hmap : s.map (overwriteBy r) = s :=
      map_eq_self_of _ _ (fun x hx =>
        overwriteBy_of_not_match r x
          (Bool.eq_false_iff.mpr (List.any_eq_false.mp hf x hx)))
    rw [e1]
    unfold upsertRow
    rw [if_pos hany, List.map_append, hmap]
    simp [overwriteBy_of_match r r (rowKeyMatch_self r)]

/-- Mapping the overwrite over a store with unique keys keeps exactly
one row at the incoming key — and that row carries the incoming
values. -/
theorem filter_map_overwrite (r : PriceRow) :
    ∀ (s : List PriceRow), nodupKeys s →
      (s.map (overwriteBy r)).filter (rowKeyMatch r.date r.ticker)
        = if s.any (rowKeyMatch r.date r.ticker) then [r] else [] := by
  intro s
  induction s with
  | nil => intro _; simp
  | cons x t ih =>
    intro h
    unfold nodupKeys rowKeys at h
    rw [List.map_cons, List.nodup_cons] at h
    obtain ⟨hhead, htl⟩ := h
    have hnd : nodupKeys t := htl
    by_cases hx : rowKeyMatch r.date r.ticker x = true
    · have hxr : overwriteBy r x = r := overwriteBy_of_match r x hx
      have htail : ∀ y ∈ t, rowKeyMatch r.date r.ticker y = false := by
        intro y hy
        apply Bool.eq_false_iff.mpr
        intro hc
        apply hhead
        have hx' : x.date = r.date ∧ x.ticker = r.ticker := by
          simpa [rowKeyMatch] using hx
        have hy' : y.date = r.date ∧ y.ticker = r.ticker := by
          simpa [rowKeyMatch] using hc
        have he : (x.date, x.ticker) = (y.date, y.ticker) := by
          rw [hx'.1, hx'.2, hy'.1, hy'.2]
        rw [he]
        exact List.mem_map_of_mem _ hy
      have hmapt : t.map (overwriteBy r) = t :=
        map_eq_self_of _ _ (fun y hy => overwriteBy_of_not_match r y (htail y hy))
      have hfil : t.filter (rowKeyMatch r.date r.ticker) = [] :=
        List.filter_eq_nil_iff.mpr (fun y hy => by simp [htail y hy])
      simp [List.filter_cons, hxr, rowKeyMatch_self, hx, hmapt, hfil]
    · have hxf : rowKeyMatch r.date r.ticker x = false := Bool.eq_false_iff.mpr hx
      have hxo : overwriteBy r x = x := overwriteBy_of_not_match r x hxf
      simp [List.filter_cons, hxo, hxf, ih hnd]

/-- After an upsert into a store with unique keys, the rows at the
incoming key are exactly the incoming row. -/
theorem upsert_unique_row (s : List PriceRow) (r : PriceRow) (h : nodupKeys s) :
    (upsertRow s r).filter (rowKeyMatch r.date r.ticker) = [r] := by
  unfold upsertRow
  by_cases hs : s.any (rowKeyMatch r.date r.ticker) = true
  · rw [if_pos hs, filter_map_overwrite r s h, if_pos hs]
  · have hf : s.any (rowKeyMatch r.date r.ticker) = false := Bool.eq_false_iff.mpr hs
    rw [if_neg hs, List.filter_append,
      List.filter_eq_nil_iff.mpr (List.any_eq_false.mp hf)]
    simp [rowKeyMatch_self]

/-- Overwriting preserves the store's key column. -/
theorem rowKeys_map_overwrite (s : List PriceRow) (r : PriceRow) :
    rowKeys (s.map (overwriteBy r)) = rowKeys s := by
  unfold rowKeys
  rw [List.map_map]
  apply List.map_congr_left
  intro x _
  simp [Function.comp, overwriteBy_date, overwriteBy_ticker]

/-- An upsert never introduces a duplicate key. -/
theorem upsert_nodupKeys (s : List PriceRow) (r : PriceRow) (h : nodupKeys s) :
    nodupKeys (upsertRow s r) := by
  unfold upsertRow
  by_cases hs : s.any (rowKeyMatch r.date r.ticker) = true
  · rw [if_pos hs]
    unfold nodupKeys
    rw [rowKeys_map_overwrite]
    exact h
  · have hf : s.any (rowKeyMatch r.date r.ticker) = false := Bool.eq_false_iff.mpr hs
    rw [if_neg hs]
    unfold nodupKeys rowKeys
    rw [List.map_append, List.nodup_append]
    refine ⟨h, by simp, ?_⟩
    intro a ha hb
    simp only [List.map_cons, List.map_nil, List.mem_singleton] at hb
    obtain ⟨x, hx, rfl⟩ := List.mem_map.mp ha
    have hm : rowKeyMatch r.date r.ticker x = true := by
      have hb' : x.date = r.date ∧ x.ticker = r.ticker := by
        simpa [Prod.ext_iff] using hb
      simp [rowKeyMatch, hb'.1, hb'.2]
    exact (List.any_eq_false.mp hf x hx) hm

/-- C4: the loader's upsert is idempotent and keyed by (date, ticker):
re-applying a row changes nothing, and after the upsert exactly one
stored row sits at the row's key, carrying the row's price and volume;
no duplicate key is ever created. -/
theorem upsert_key_idempotent (s : List PriceRow) (r : PriceRow)
    (h : nodupKeys s) :
    upsertRow (upsertRow s r) r = upsertRow s r
    ∧ (upsertRow s r).filter (rowKeyMatch r.date r.ticker) = [r]
    ∧ nodupKeys (upsertRow s r) :=
  ⟨upsertRow_idem s r, upsert_unique_row s r h, upsert_nodupKeys s r h⟩

theorem upsert_key_idempotent_witness :
    nodupKeys demoStore
    ∧ (upsertRow (upsertRow demoStore
          ({ date := 1, ticker := "A", price := 99, volume := some 3 } : PriceRow))
          ({ date := 1, ticker := "A", price := 99, volume := some 3 } : PriceRow)
        = upsertRow demoStore
          ({ date := 1, ticker := "A", price := 99, volume := some 3 } : PriceRow)
      ∧ (upsertRow demoStore
            ({ date := 1, ticker := "A", price := 99, volume := some 3 } : PriceRow)).filter
          (rowKeyMatch
            ({ date := 1, ticker := "A", price := 99, volume := some 3 } : PriceRow).date
            ({ date := 1, ticker := "A", price := 99, volume := some 3 } : PriceRow).ticker)
          = [({ date := 1, ticker := "A", price := 99, volume := some 3 } : PriceRow)]
      ∧ nodupKeys (upsertRow demoStore
          ({ date := 1, ticker := "A", price := 99, volume := some 3 } : PriceRow))) :=
  ⟨by decide,
    upsert_key_idempotent demoStore
      ({ date := 1, ticker := "A", price := 99, volume := some 3 } : PriceRow)
      (by decide)⟩

/-! ### Metadata seeding (C8) and pipeline view rebuild (C9) -/

/-- A candidate whose ticker is nowhere in the store is appended. -/
theorem insertIgnore_absent (s : List MetaRow) (c : MetaRow)
    (h : ∀ x ∈ s, (x.ticker == c.ticker) = false) :
    insertIgnore s c = s ++ [c] := by
  have hc : (s.any fun x => x.ticker == c.ticker) = false :=
    List.any_eq_false.mpr (fun x hx => by simp [h x hx])
  simp [insertIgnore, hc]

/-- Folding the conflict-ignoring insert over candidates that are fresh
for the store and pairwise distinct appends them all. -/
theorem foldl_insertIgnore_fresh :
    ∀ (l : List MetaRow) (s : List MetaRow),
      (∀ c ∈ l, ∀ x ∈ s, (x.ticker == c.ticker) = false) →
      (l.map (fun c => c.ticker)).Nodup →
      l.foldl insertIgnore s = s ++ l := by
  intro l
  induction l with
  | nil => intro s _ _; simp
  | cons c t ih =>
    intro s hfresh hnd
    rw [List.map_cons, List.nodup_cons] at hnd
    obtain ⟨hhead, htl⟩ := hnd
    have hc : insertIgnore s c = s ++ [c] :=
      insertIgnore_absent s c (fun x hx => hfresh c (List.mem_cons_self c t) x hx)
    have hfresh' : ∀ c' ∈ t, ∀ x ∈ s ++ [c], (x.ticker == c'.ticker) = false := by
      intro c' hc' x hx
      rcases List.mem_append.mp hx with hxs | hxc
      · exact hfresh c' (List.mem_cons_of_mem c hc') x hxs
      · have hxe : x = c := by simpa using hxc
        subst hxe
        apply beq_eq_false_iff_ne.mpr
        intro e
        exact hhead (e ▸ List.mem_map_of_mem _ hc')
    rw [List.foldl_cons, hc, ih (s ++ [c]) hfresh' htl, List.append_assoc]
    rfl

/-- C8, counterexample: with the same ticker listed twice among fresh
candidates, the logged "new ticker" count is 2 while only one row is
actually inserted (`ON CONFLICT DO NOTHING` skips the duplicate), so the
reported count is not the count of newly inserted rows. -/
theorem seed_count_counterexample :
    (seedNewTickers []
        [{ ticker := "AAPL", company_name := "Apple", sector := "Tech" },
         { ticker := "AAPL", company_name := "Apple", sector := "Tech" }]).2 = 2
    ∧ (seedNewTickers []
        [{ ticker := "AAPL", company_name := "Apple", sector := "Tech" },
         { ticker := "AAPL", company_name := "Apple", sector := "Tech" }]).1.length = 1
    ∧ ¬ (seedNewTickers []
        [{ ticker := "AAPL", company_name := "Apple", sector := "Tech" },
         { ticker := "AAPL", company_name := "Apple", sector := "Tech" }]).2
      = (seedNewTickers []
        [{ ticker := "AAPL", company_name := "Apple", sector := "Tech" },
         { ticker := "AAPL", company_name := "Apple", sector := "Tech" }]).1.length
        - ([] : List MetaRow).length := by
  refine ⟨by decide, by decide, by decide⟩

/-- C8, amended: for candidates with pairwise-distinct tickers, seeding
inserts exactly the candidates whose ticker is not already present —
appended after the untouched existing rows — and the reported count
equals the number of newly inserted rows; an empty candidate list is a
no-op. -/
theorem seed_insert_absent_spec (s cands : List MetaRow)
    (h : (cands.map (fun c => c.ticker)).Nodup) :
    (seedNewTickers s cands).1
        = s ++ cands.filter
            (fun c => !((s.map (fun x => x.ticker)).contains c.ticker))
    ∧ (seedNewTickers s cands).2
        = (cands.filter
            (fun c => !((s.map (fun x => x.ticker)).contains c.ticker))).length
    ∧ seedNewTickers s [] = (s, 0) := by
  refine ⟨?_, rfl, rfl⟩
  unfold seedNewTickers
  apply foldl_insertIgnore_fresh
  · intro c hc x hx
    have hnc : ((s.map (fun x => x.ticker)).contains c.ticker) = false := by
      have := (List.mem_filter.mp hc).2
      simpa using this
    apply beq_eq_false_iff_ne.mpr
    intro e
    rw [List.contains_eq_any_beq] at hnc
    have := List.any_eq_false.mp hnc x.ticker (List.mem_map_of_mem _ hx)
    simp [e] at this
  · exact List.Nodup.sublist ((List.filter_sublist cands).map _) h

theorem seed_insert_absent_spec_witness :
    ((([{ ticker := "AAPL", company_name := "Apple", sector := "Tech" },
        { ticker := "MSFT", company_name := "Microsoft", sector := "Tech" }] :
          List MetaRow).map (fun c => c.ticker)).Nodup)
    ∧ ((seedNewTickers
          [({ ticker := "AAPL", company_name := "Apple", sector := "Tech" } : MetaRow)]
          [{ ticker := "AAPL", company_name := "Apple", sector := "Tech" },
           { ticker := "MSFT", company_name := "Microsoft", sector := "Tech" }]).1
        = [({ ticker := "AAPL", company_name := "Apple", sector := "Tech" } : MetaRow)]
          ++ ([{ ticker := "AAPL", company_name := "Apple", sector := "Tech" },
              { ticker := "MSFT", company_name := "Microsoft", sector := "Tech" }] :
                List MetaRow).filter
            (fun c => !((([({ ticker := "AAPL", company_name := "Apple", sector := "Tech" } : MetaRow)]).map
                (fun x => x.ticker)).contains c.ticker))
      ∧ (seedNewTickers
          [({ ticker := "AAPL", company_name := "Apple", sector := "Tech" } : MetaRow)]
          [{ ticker := "AAPL", company_name := "Apple", sector := "Tech" },
           { ticker := "MSFT", company_name := "Microsoft", sector := "Tech" }]).2
        = (([{ ticker := "AAPL", company_name := "Apple", sector := "Tech" },
            { ticker := "MSFT", company_name := "Microsoft", sector := "Tech" }] :
              List MetaRow).filter
            (fun c => !((([({ ticker := "AAPL", company_name := "Apple", sector := "Tech" } : MetaRow)]).map
                (fun x => x.ticker)).contains c.ticker))).length
      ∧ seedNewTickers
          [({ ticker := "AAPL", company_name := "Apple", sector := "Tech" } : MetaRow)]
          [] = ([({ ticker := "AAPL", company_name := "Apple", sector := "Tech" } : MetaRow)], 0)) :=
  ⟨by decide,
    seed_insert_absent_spec
      [({ ticker := "AAPL", company_name := "Apple", sector := "Tech" } : MetaRow)]
      [{ ticker := "AAPL", company_name := "Apple", sector := "Tech" },
       { ticker := "MSFT", company_name := "Microsoft", sector := "Tech" }]
      (by decide)⟩

/-- Tagging preserves frame emptiness. -/
theorem tagRows_isEmpty (t : String) (raw : List RawRow) :
    (tagRows t raw).isEmpty = raw.isEmpty := by
  cases raw <;> rfl

/-- The accumulated frame list is empty exactly when no ticker's fetch
returned data. -/
theorem frames_isEmpty (fetched : String → List RawRow) :
    ∀ (l : List String),
      ((l.map (fun t => tagRows t (fetched t))).filter
          (fun f => !f.isEmpty)).isEmpty
        = !(l.any (fun t => !(fetched t).isEmpty)) := by
  intro l
  induction l with
  | nil => rfl
  | cons t rest ih =>
    by_cases h : (fetched t).isEmpty = true
    · simp [List.filter_cons, tagRows_isEmpty, h, ih]
    · have h' : (fetched t).isEmpty = false := Bool.eq_false_iff.mpr h
      simp [List.filter_cons, tagRows_isEmpty, h']

/-- Starting from a state whose view was dropped, the ETL phase leaves
the view existing exactly when some ticker's fetch returned data. -/
theorem extract_view_exists (fetched : String → List RawRow) (st : DBState)
    (h : st.viewExists = false) :
    (extract_and_load_stocks fetched st).viewExists
      = (st.metaRows.map (fun m => m.ticker)).any (fun t => !(fetched t).isEmpty) := by
  simp only [extract_and_load_stocks]
  by_cases h1 : (st.metaRows.map (fun m => m.ticker)).isEmpty = true
  · rw [if_pos h1]
    rw [List.isEmpty_iff] at h1
    simp [h1, h]
  · have hfr := frames_isEmpty fetched (st.metaRows.map (fun m => m.ticker))
    rw [if_neg h1]
    by_cases h2 :
        (st.metaRows.map (fun m => m.ticker)).any (fun t => !(fetched t).isEmpty) = true
    · have hne : ¬ ((((st.metaRows.map (fun m => m.ticker)).map
          (fun t => tagRows t (fetched t))).filter (fun f => !f.isEmpty)).isEmpty
          = true) := by
        rw [hfr, h2]
        exact Bool.false_ne_true
      rw [if_neg hne, h2]
    · have h2' :
          (st.metaRows.map (fun m => m.ticker)).any (fun t => !(fetched t).isEmpty)
            = false := Bool.eq_false_iff.mpr h2
      have hne : ((((st.metaRows.map (fun m => m.ticker)).map
          (fun t => tagRows t (fetched t))).filter (fun f => !f.isEmpty)).isEmpty
          = true) := by
        rw [hfr, h2']
        rfl
      rw [if_pos hne, h, h2']

/-- C9, counterexample: a run whose ticker list is empty drops the view
during schema setup and returns early from the ETL phase, so the run
ends with the analytics view absent even though it existed before. -/
theorem view_rebuild_counterexample :
    (pipelineRun [] (fun _ => [])
        { metaRows := [], priceRows := [], viewExists := true }).viewExists
      = false := by
  decide

/-- C9, amended: a pipeline run ends with the analytics view existing
(freshly recreated) exactly when at least one seeded ticker's fetch
returns data; with an empty ticker list, or when every fetch comes back
empty, the run returns early and leaves the view dropped. -/
theorem view_rebuild_iff_data (cfg : List MetaRow)
    (fetched : String → List RawRow) (st : DBState) :
    (pipelineRun cfg fetched st).viewExists
      = ((setup_database_schema cfg st).metaRows.map (fun m => m.ticker)).any
          (fun t => !(fetched t).isEmpty) := by
  unfold pipelineRun
  exact extract_view_exists fetched _ rfl

example : windowRows 3 1 [1, 2, 5, 9] = [1, 2] := by decide

example : windowRows 3 3 [1, 2, 5, 9] = [2, 5, 9] := by decide

example : sma 2 2 [1, 2, 5, 9] = 7 / 2 := by norm_num [sma, windowRows]

example : trendSignal 3 2 = "Bullish" := by decide

example : daily_return_pct [100, 102] 0 = none := by decide

example : daily_return_pct [0, 102] 1 = none := by decide

example : daily_return_pct [100, 102] 1 = some 2 := by
  norm_num [daily_return_pct, opt2, lagPrice, nullif, roundTo]
  rw [show (20000 : ℚ) = ((20000 : ℤ) : ℚ) by norm_num, roundHalfAway_intCast]
  norm_num

example : pct_from_52wk_high [100, 90] 1 = some (-10) := by
  norm_num [pct_from_52wk_high, opt2, nullif, roundTo, high_52week, windowRows,
    List.max?]
  rw [show (-1000 : ℚ) = ((-1000 : ℤ) : ℚ) by norm_num, roundHalfAway_intCast]
  norm_num

end StockAnalysis
